import Mathlib

/-!
Verification of the pluggable checkpoint storage managers
(`determined/common/storage/s3.py` and `determined/common/storage/hdfs.py`).

The adapters are embedded as explicit state-transformers over a `World`
holding the local staging directories, the trace of backend requests, the
process-global random generator state and the set of remote objects.
Backend behaviour (which requests fail, how much random state a client call
consumes) is a parameter `BackendEnv`, so theorems quantify over every
possible backend outcome.
-/

/-- Error values standing for Python exception identities: an operation either
returns normally (`Except.ok`) or raises a particular exception (`Except.error e`). -/
abbrev Err := Nat

/-- `rel.endswith("/")` on a relative path: its last character is `'/'`. -/
def endswithSlash (r : String) : Bool := r.data.getLast? = some '/'

/-- `rel.startswith("/")`: the first character is `'/'`. -/
def startswithSlash (r : String) : Bool := r.data.head? = some '/'

/-- Drop every trailing `'/'` (Python `head.rstrip('/')`), list form. -/
def rstripSlashL (cs : List Char) : List Char :=
  (cs.reverse.dropWhile (fun c => c == '/')).reverse

/-- Drop every trailing `'/'` (Python `head.rstrip('/')`). -/
def rstripSlash (s : String) : String := String.mk (rstripSlashL s.data)

/-- The second half of `os.path.dirname`: the head (everything up to and
including the last `'/'`) is returned as-is when it consists only of slashes,
and with its trailing slashes stripped otherwise. -/
def dirnameHead (head : List Char) : List Char :=
  if head.all (fun c => c == '/') then head else rstripSlashL head

/-- `os.path.dirname` for POSIX paths, list form: with no `'/'` present the
result is empty; otherwise the head up to and including the last `'/'` is
post-processed by `dirnameHead`. -/
def dirnameL (cs : List Char) : List Char :=
  if (cs.reverse.takeWhile (fun c => c != '/')).length = cs.length then []
  else
    dirnameHead ((cs.reverse.drop ((cs.reverse.takeWhile (fun c => c != '/')).length)).reverse)

/-- `os.path.dirname` for POSIX paths. -/
def dirname (s : String) : String := String.mk (dirnameL s.data)

/-- `os.path.join(a, b)` for POSIX paths: an absolute `b` discards `a`;
otherwise a separator is inserted unless `a` is empty or already ends in one. -/
def pjoin (a b : String) : String :=
  if startswithSlash b = true then b
  else if a = "" ∨ endswithSlash a = true then a ++ b
  else a ++ "/" ++ b

/-- Python `str.lower()`: each character lowercased (kernel-computable model
of the `Server` header normalization). -/
def strToLower (s : String) : String := String.mk (s.data.map Char.toLower)

/-- `q` is the directory `p` itself or lies strictly below it: the test used by
the model of recursive removal (`shutil.rmtree`). -/
def underOrEq (p q : String) : Bool := q == p || (p ++ "/").data.isPrefixOf q.data

/-- The Resource Map (`StorageMetadata`): the artifact identifier and the
ordered mapping from relative path to size in bytes. -/
structure StorageMetadata where
  storage_id : String
  resources : List (String × Nat)
deriving DecidableEq

/-- The remote-path argument of an hdfs client call: either an actual string
path, or (as in the source's `post_store_path`) the whole `StorageMetadata`
object passed where a path is expected. -/
inductive HdfsArg where
  | path (p : String)
  | metadataObj (m : StorageMetadata)
deriving DecidableEq

/-- One request issued to a remote backend client. -/
inductive BackendCall where
  | putObject (bucket key : String) (body : List Nat)
  | uploadFile (abs_path bucket key : String)
  | downloadFile (bucket key abs_path : String)
  | deleteObjects (bucket : String) (keys : List String)
  | hdfsUpload (remote : HdfsArg) (lpath : String)
  | hdfsDownload (remote lpath : String) (overwrite : Bool)
  | hdfsDelete (remote : String) (recursive : Bool)
deriving DecidableEq

/-- The observable state: existing local directories, the trace of backend
requests issued so far (oldest first), the process-global random generator
state, and the set of remote object keys / paths. -/
structure World where
  dirs : List String
  calls : List BackendCall
  rng : Nat
  remote : List String

/-- A Python-level operation: it transforms the world and either returns
normally or raises. The world survives an exception (the program keeps
running its `finally` blocks on it). -/
abbrev M := World → World × Except Err Unit

/-- The effect of a successful backend request on the remote object store. -/
def applyCall : BackendCall → List String → List String
  | .putObject _ key _, r => key :: r
  | .uploadFile _ _ key, r => key :: r
  | .downloadFile _ _ _, r => r
  | .deleteObjects _ keys, r => r.filter (fun q => !(keys.contains q))
  | .hdfsUpload (.path p) _, r => p :: r
  | .hdfsUpload (.metadataObj _) _, r => r
  | .hdfsDownload _ _ _, r => r
  | .hdfsDelete p _, r => r.filter (fun q => !(underOrEq p q))

/-- Backend behaviour: which request raises which exception (as a function of
the current remote state), and how much global random state a client call
consumes. -/
structure BackendEnv where
  fails : BackendCall → List String → Option Err
  rngUse : BackendCall → Nat → Nat

/-- Issue one backend request: it is recorded in the trace, may consume random
state, and either raises (per the environment) or succeeds and updates the
remote state. -/
def issue (env : BackendEnv) (c : BackendCall) : M := fun s =>
  let rng2 := env.rngUse c s.rng
  match env.fails c s.remote with
  | some e => ({ s with calls := s.calls ++ [c], rng := rng2 }, .error e)
  | none =>
      ({ s with calls := s.calls ++ [c], rng := rng2,
                remote := applyCall c s.remote }, .ok ())

/-- Ensure a local directory exists (used for the effect of client downloads). -/
def addDir (p : String) (s : World) : World :=
  if p ∈ s.dirs then s else { s with dirs := p :: s.dirs }

/-- `os.makedirs(p, exist_ok=ok)`: creating an existing directory raises
`FileExistsError` unless `exist_ok` is set; otherwise the directory is added. -/
def makedirsM (p : String) (exist_ok : Bool) : M := fun s =>
  if p ∈ s.dirs then (s, if exist_ok then .ok () else .error 1)
  else ({ s with dirs := p :: s.dirs }, .ok ())

/-- Modelled from the spec: `StorageManager._remove_checkpoint_directory`
(in `determined/common/storage/base.py`, not under `src/`) joins the staging
base path with the storage id and recursively removes that subdirectory
("guaranteed recursive removal", spec section 3). In the directory-set model,
removal deletes the subdirectory and every directory below it. -/
def removeCheckpointDirectory (base_path storage_id : String) (s : World) : World :=
  { s with dirs := s.dirs.filter (fun q => !(underOrEq (pjoin base_path storage_id) q)) }

/-- A `try: body finally: fin` block whose `finally` clause cannot raise:
`fin` runs on the body's final world whether the body returned or raised, and
the body's outcome (including its exception) is what the block produces. -/
def tryFinallyM (body : M) (fin : World → World) : M := fun s =>
  let out := body s
  (fin out.1, out.2)

/-- Modelled from the spec: `util.preserve_random_state` (in
`determined/common/util.py`, not under `src/`): "on entry it captures the
current global random generator state; on exit (success or failure) it
restores the captured state" (spec section 4.4). -/
def preserveRandomState (f : M) : M := fun s =>
  let out := f s
  ({ out.1 with rng := s.rng }, out.2)

/-- Run a loop body over a list of items, stopping at the first exception
(Python `for` loop with a raising body). -/
def runSteps {α : Type} (step : World → α → World × Except Err Unit) :
    World → List α → World × Except Err Unit
  | s, [] => (s, .ok ())
  | s, a :: as =>
      match step s a with
      | (s2, .ok _) => runSteps step s2 as
      | (s2, .error e) => (s2, .error e)

/-- Fuel-indexed worker for `chunks` (structural recursion so that concrete
instances evaluate). -/
def chunksFuel {α : Type} (k : Nat) : Nat → List α → List (List α)
  | _, [] => []
  | 0, _ :: _ => []
  | fuel + 1, x :: xs => (x :: xs).take k :: chunksFuel k fuel ((x :: xs).drop k)

/-- Modelled from the spec: `util.chunks` (in `determined/common/util.py`, not
under `src/`): "given a sequence and a maximum chunk size, produces a lazy
sequence of sub-sequences each no longer than the maximum, preserving original
order, with the final chunk possibly shorter" (spec section 4.5). A fuel of
the list length suffices for every positive chunk size. -/
def chunks {α : Type} (l : List α) (k : Nat) : List (List α) :=
  chunksFuel k l.length l

/-- Outcome of the one `requests.get(endpoint_url)` probe at construction:
a response carrying an optional `Server` header, an exception matching the
`except ConnectionError` clause, or any other exception. -/
inductive ProbeResult where
  | headers (server : Option String)
  | connectionError
  | otherError (e : Err)
deriving DecidableEq

namespace S3StorageManager

/-- The minio-detection part of `S3StorageManager.__init__`: the workaround
starts disabled; with a configured endpoint the probe runs, a caught
connection error is swallowed (`pass`), any other exception propagates, and on
a response the workaround is set from the lowercased `Server` header. -/
def init (endpoint_url : Option String) (probe : ProbeResult) : Except Err Bool :=
  match endpoint_url with
  | none => .ok false
  | some _ =>
      match probe with
      | .connectionError => .ok false
      | .otherError e => .error e
      | .headers server => .ok ((strToLower (server.getD "")) == "minio")

/-- One iteration of the `upload` loop: a key `storage_id/rel_path` is formed;
a trailing-slash entry writes an empty object unless the minio workaround is
enabled (then it is skipped); otherwise the local file is uploaded. -/
def uploadStep (env : BackendEnv) (bucket : String) (minio : Bool)
    (sid storage_dir : String) (s : World) (rel : String) :
    World × Except Err Unit :=
  let key := sid ++ "/" ++ rel
  if endswithSlash rel = true then
    if minio = false then issue env (.putObject bucket key []) s else (s, .ok ())
  else
    issue env (.uploadFile (pjoin storage_dir rel) bucket key) s

/-- `S3StorageManager.upload` (decorated with `preserve_random_state`). -/
def upload (env : BackendEnv) (bucket : String) (minio : Bool)
    (md : StorageMetadata) (storage_dir : String) : M :=
  preserveRandomState (fun s =>
    runSteps (uploadStep env bucket minio md.storage_id storage_dir) s
      (md.resources.map Prod.fst))

/-- One iteration of the `download` loop: the parent directory of the local
target is created with `exist_ok`, a trailing-slash entry is skipped
(`continue`), and any other entry is fetched from `storage_id/rel_path`. -/
def downloadStep (env : BackendEnv) (bucket sid storage_dir : String)
    (s : World) (rel : String) : World × Except Err Unit :=
  let abs_path := pjoin storage_dir rel
  let out := makedirsM (dirname abs_path) true s
  match out.2 with
  | .error e => (out.1, .error e)
  | .ok _ =>
      if endswithSlash rel = true then (out.1, .ok ())
      else issue env (.downloadFile bucket (sid ++ "/" ++ rel) abs_path) out.1

/-- `S3StorageManager.download` (decorated with `preserve_random_state`). -/
def download (env : BackendEnv) (bucket : String) (md : StorageMetadata)
    (storage_dir : String) : M :=
  preserveRandomState (fun s =>
    runSteps (downloadStep env bucket md.storage_id storage_dir) s
      (md.resources.map Prod.fst))

/-- The object key list built by `delete`: `storage_id/rel_path` for every
resource, in Resource Map iteration order. -/
def deleteKeys (md : StorageMetadata) : List String :=
  md.resources.map (fun r => md.storage_id ++ "/" ++ r.1)

/-- `S3StorageManager.delete` (decorated with `preserve_random_state`): the
keys are chunked to the backend batch limit of 1000 and one `delete_objects`
request is issued per chunk. -/
def delete (env : BackendEnv) (bucket : String) (md : StorageMetadata) : M :=
  preserveRandomState (fun s =>
    runSteps (fun s2 c => issue env (.deleteObjects bucket c) s2) s
      (chunks (deleteKeys md) 1000))

/-- `S3StorageManager.post_store_path`: upload inside `try`, with the staging
subdirectory for `metadata.storage_id` removed in `finally`. -/
def post_store_path (env : BackendEnv) (bucket : String) (minio : Bool)
    (base_path storage_id storage_dir : String) (md : StorageMetadata) : M :=
  tryFinallyM (upload env bucket minio md storage_dir)
    (removeCheckpointDirectory base_path md.storage_id)

/-- `S3StorageManager.restore_path` as a scoped acquisition: the staging
subdirectory is created with `exist_ok`, the checkpoint is downloaded into it
(both before the `try`), then the caller's scope body runs on the joined path
with the removal in `finally`. -/
def restore_path (env : BackendEnv) (bucket : String) (base_path : String)
    (md : StorageMetadata) (body : String → M) : M := fun s =>
  let storage_dir := pjoin base_path md.storage_id
  let out1 := makedirsM storage_dir true s
  match out1.2 with
  | .error e => (out1.1, .error e)
  | .ok _ =>
      let out2 := download env bucket md storage_dir out1.1
      match out2.2 with
      | .error e => (out2.1, .error e)
      | .ok _ =>
          tryFinallyM (body (pjoin base_path md.storage_id))
            (removeCheckpointDirectory base_path md.storage_id) out2.1

end S3StorageManager

namespace HDFSStorageManager

/-- `HDFSStorageManager.post_store_path` (decorated with
`preserve_random_state`): a single recursive `client.upload` call inside
`try` — whose remote-path argument is the `metadata` object itself, not
`metadata.storage_id` — with the staging subdirectory for
`metadata.storage_id` removed in `finally`. -/
def post_store_path (env : BackendEnv) (base_path storage_id storage_dir : String)
    (md : StorageMetadata) : M :=
  preserveRandomState
    (tryFinallyM (issue env (.hdfsUpload (.metadataObj md) storage_dir))
      (removeCheckpointDirectory base_path md.storage_id))

/-- `HDFSStorageManager.download` (decorated with `preserve_random_state`): a
single recursive `client.download(storage_id, base_path, overwrite=True)`;
on success the client materializes the subtree at `base_path/storage_id`. -/
def download (env : BackendEnv) (base_path : String) (md : StorageMetadata) : M :=
  preserveRandomState (fun s =>
    let out := issue env (.hdfsDownload md.storage_id base_path true) s
    match out.2 with
    | .ok _ => (addDir (pjoin base_path md.storage_id) out.1, .ok ())
    | .error e => (out.1, .error e))

/-- `HDFSStorageManager.restore_path`: download (before the `try`), then the
caller's scope body on the joined path with the removal in `finally`. -/
def restore_path (env : BackendEnv) (base_path : String) (md : StorageMetadata)
    (body : String → M) : M := fun s =>
  let out := download env base_path md s
  match out.2 with
  | .error e => (out.1, .error e)
  | .ok _ =>
      tryFinallyM (body (pjoin base_path md.storage_id))
        (removeCheckpointDirectory base_path md.storage_id) out.1

/-- `HDFSStorageManager.delete` (decorated with `preserve_random_state`): a
single recursive `client.delete(storage_id, recursive=True)`. -/
def delete (env : BackendEnv) (md : StorageMetadata) : M :=
  preserveRandomState (issue env (.hdfsDelete md.storage_id true))

end HDFSStorageManager

/-- Modelled from the spec: a backend environment in which batch and recursive
deletes never raise — "delete is idempotent: deleting an already-deleted key
is a no-op, not an error" (spec section 4.1); other requests behave
arbitrarily. -/
def deleteTolerantEnv (other : BackendCall → List String → Option Err)
    (g : BackendCall → Nat → Nat) : BackendEnv :=
  { fails := fun c r =>
      match c with
      | .deleteObjects _ _ => none
      | .hdfsDelete _ _ => none
      | c2 => other c2 r
    rngUse := g }

/-- A backend environment in which every request succeeds and no random state
is consumed. -/
def envOk : BackendEnv := { fails := fun _ _ => none, rngUse := fun _ n => n }

/-- A backend environment in which every download request raises exception 3. -/
def envFailDl : BackendEnv :=
  { fails := fun c _ =>
      match c with
      | .downloadFile _ _ _ => some 3
      | .hdfsDownload _ _ _ => some 3
      | _ => none
    rngUse := fun _ n => n }

/-- An initially empty world. -/
def w0 : World := { dirs := [], calls := [], rng := 0, remote := [] }

/-- A scope body that returns normally without touching the world. -/
def bodyOk : String → M := fun _ s => (s, .ok ())

/-- A two-resource Resource Map with a file and a directory marker. -/
def mdExample : StorageMetadata :=
  { storage_id := "abc123", resources := [("model.bin", 4096), ("logs/", 0)] }

/-- A Resource Map with 2500 resources. -/
def md2500 : StorageMetadata :=
  { storage_id := "abc", resources := List.replicate 2500 ("a", 0) }

/-- A Resource Map whose `storage_id` differs from a caller-passed `"aa"`. -/
def mdB : StorageMetadata := { storage_id := "bb", resources := [("f", 1)] }

/-- A world in which both staging subdirectories `/tmp/aa` and `/tmp/bb` exist. -/
def wAB : World := { dirs := ["/tmp/aa", "/tmp/bb"], calls := [], rng := 0, remote := [] }

/-- A world in which the staging subdirectory `/tmp/abc123` already exists. -/
def wPre : World := { dirs := ["/tmp/abc123"], calls := [], rng := 0, remote := [] }

theorem chunksFuel_nil {α : Type} (k fuel : Nat) :
    chunksFuel (α := α) k fuel [] = [] := by
  cases fuel <;> rfl

theorem chunksFuel_succ {α : Type} (k fuel : Nat) (x : α) (xs : List α) :
    chunksFuel k (fuel + 1) (x :: xs)
      = (x :: xs).take k :: chunksFuel k fuel ((x :: xs).drop k) := rfl

theorem chunksFuel_irrel {α : Type} (k : Nat) (hk : 0 < k) :
    ∀ (f1 f2 : Nat) (l : List α), l.length ≤ f1 → l.length ≤ f2 →
      chunksFuel k f1 l = chunksFuel k f2 l := by
  intro f1
  induction f1 with
  | zero =>
    intro f2 l h1 h2
    have hl : l = [] := List.eq_nil_of_length_eq_zero (Nat.le_zero.mp h1)
    subst hl
    simp [chunksFuel_nil]
  | succ f ih =>
    intro f2 l h1 h2
    cases l with
    | nil => simp [chunksFuel_nil]
    | cons x xs =>
      cases f2 with
      | zero => simp at h2
      | succ g =>
        rw [chunksFuel_succ, chunksFuel_succ]
        congr 1
        apply ih
        · rw [List.length_drop]
          simp only [List.length_cons] at h1 ⊢
          omega
        · rw [List.length_drop]
          simp only [List.length_cons] at h2 ⊢
          omega

theorem chunks_nil {α : Type} (k : Nat) : chunks ([] : List α) k = [] := rfl

theorem chunks_cons {α : Type} (k : Nat) (hk : 0 < k) (x : α) (xs : List α) :
    chunks (x :: xs) k = (x :: xs).take k :: chunks ((x :: xs).drop k) k := by
  show chunksFuel k (x :: xs).length (x :: xs) = _
  rw [show (x :: xs).length = xs.length + 1 from rfl, chunksFuel_succ]
  congr 1
  apply chunksFuel_irrel k hk
  · rw [List.length_drop]; simp; omega
  · exact Nat.le_refl _

theorem chunks_eq_nil_iff {α : Type} (k : Nat) (hk : 0 < k) (l : List α) :
    chunks l k = [] ↔ l = [] := by
  cases l with
  | nil => simp [chunks_nil]
  | cons x xs => simp [chunks_cons k hk]

theorem chunks_join {α : Type} (k : Nat) (hk : 0 < k) (l : List α) :
    (chunks l k).flatten = l := by
  suffices h : ∀ n (l2 : List α), l2.length = n → (chunks l2 k).flatten = l2 from
    h l.length l rfl
  intro n
  induction n using Nat.strong_induction_on with
  | _ n ih =>
    intro l2 hl
    cases l2 with
    | nil => simp [chunks_nil]
    | cons x xs =>
      rw [chunks_cons k hk]
      have hlt : ((x :: xs).drop k).length < n := by
        rw [List.length_drop]
        simp only [List.length_cons] at hl ⊢
        omega
      simp only [List.flatten_cons]
      rw [ih _ hlt _ rfl]
      exact List.take_append_drop k (x :: xs)

theorem chunks_length {α : Type} (k : Nat) (hk : 0 < k) (l : List α) :
    (chunks l k).length = (l.length + k - 1) / k := by
  suffices h : ∀ n (l2 : List α), l2.length = n →
      (chunks l2 k).length = (l2.length + k - 1) / k from h l.length l rfl
  intro n
  induction n using Nat.strong_induction_on with
  | _ n ih =>
    intro l2 hl
    cases l2 with
    | nil =>
      simp [chunks_nil]
      rw [Nat.div_eq_of_lt (by omega)]
    | cons x xs =>
      rw [chunks_cons k hk]
      have hlt : ((x :: xs).drop k).length < n := by
        rw [List.length_drop]
        simp only [List.length_cons] at hl ⊢
        omega
      simp only [List.length_cons]
      rw [ih _ hlt _ rfl]
      rw [List.length_drop]
      simp only [List.length_cons]
      have hn1 : xs.length + 1 + k - 1 = xs.length + k := by omega
      rw [hn1]
      by_cases hcase : xs.length + 1 ≤ k
      · have h0 : xs.length + 1 - k = 0 := by omega
        rw [h0]
        have e1 : (0 + k - 1) / k = 0 := Nat.div_eq_of_lt (by omega)
        rw [e1]
        have e2 : xs.length + k = xs.length + k := rfl
        have e3 : (xs.length + k) / k = xs.length / k + 1 := Nat.add_div_right _ hk
        rw [e3, Nat.div_eq_of_lt (by omega)]
      · have e2 : xs.length + 1 - k + k - 1 = (xs.length - k) + k := by omega
        rw [e2, Nat.add_div_right _ hk]
        have e3 : xs.length + k = (xs.length - k + k) + k := by omega
        rw [e3, Nat.add_div_right _ hk, Nat.add_div_right _ hk]

theorem chunks_mem_length_le {α : Type} (k : Nat) (hk : 0 < k) (l : List α) :
    ∀ c ∈ chunks l k, c.length ≤ k := by
  suffices h : ∀ n (l2 : List α), l2.length = n →
      ∀ c ∈ chunks l2 k, c.length ≤ k from h l.length l rfl
  intro n
  induction n using Nat.strong_induction_on with
  | _ n ih =>
    intro l2 hl c hc
    cases l2 with
    | nil => simp [chunks_nil] at hc
    | cons x xs =>
      rw [chunks_cons k hk] at hc
      rcases List.mem_cons.mp hc with h1 | h2
      · subst h1
        rw [List.length_take]
        exact Nat.min_le_left _ _
      · have hlt : ((x :: xs).drop k).length < n := by
          rw [List.length_drop]
          simp only [List.length_cons] at hl ⊢
          omega
        exact ih _ hlt _ rfl c h2

theorem chunks_dropLast_length {α : Type} (k : Nat) (hk : 0 < k) (l : List α) :
    ∀ c ∈ (chunks l k).dropLast, c.length = k := by
  suffices h : ∀ n (l2 : List α), l2.length = n →
      ∀ c ∈ (chunks l2 k).dropLast, c.length = k from h l.length l rfl
  intro n
  induction n using Nat.strong_induction_on with
  | _ n ih =>
    intro l2 hl c hc
    cases l2 with
    | nil => simp [chunks_nil] at hc
    | cons x xs =>
      rw [chunks_cons k hk] at hc
      cases hrest : chunks ((x :: xs).drop k) k with
      | nil => rw [hrest] at hc; simp at hc
      | cons r rs =>
        rw [hrest] at hc
        have hd : (x :: xs).drop k ≠ [] := by
          intro hnil
          rw [hnil, chunks_nil] at hrest
          exact List.noConfusion hrest
        have hklt : k < (x :: xs).length := by
          by_contra hge
          push_neg at hge
          exact hd (List.drop_eq_nil_of_le hge)
        have hcc : c ∈ (x :: xs).take k :: (r :: rs).dropLast := by
          simpa [List.dropLast] using hc
        rcases List.mem_cons.mp hcc with h1 | h2
        · subst h1
          rw [List.length_take]
          omega
        · have hlt : ((x :: xs).drop k).length < n := by
            rw [List.length_drop]
            simp only [List.length_cons] at hl ⊢
            omega
          have := ih _ hlt _ rfl c
          rw [hrest] at this
          exact this h2

theorem preserveRandomState_rng (f : M) (s : World) :
    (preserveRandomState f s).1.rng = s.rng := rfl

theorem preserveRandomState_dirs (f : M) (s : World) :
    (preserveRandomState f s).1.dirs = (f s).1.dirs := rfl

theorem issue_dirs (env : BackendEnv) (c : BackendCall) (s : World) :
    (issue env c s).1.dirs = s.dirs := by
  unfold issue
  cases env.fails c s.remote <;> rfl

theorem issue_calls (env : BackendEnv) (c : BackendCall) (s : World) :
    (issue env c s).1.calls = s.calls ++ [c] := by
  unfold issue
  cases env.fails c s.remote <;> rfl

theorem runSteps_inv {α : Type} (step : World → α → World × Except Err Unit)
    (P : World → Prop) (h : ∀ s a, P s → P (step s a).1) :
    ∀ (as : List α) (s : World), P s → P (runSteps step s as).1 := by
  intro as
  induction as with
  | nil => intro s hs; exact hs
  | cons a as ih =>
    intro s hs
    have hstep := h s a hs
    show P (match step s a with
      | (s2, .ok _) => runSteps step s2 as
      | (s2, .error e) => (s2, .error e)).1
    cases hst : step s a with
    | mk s2 r =>
      rw [hst] at hstep
      cases r with
      | ok _ => exact ih s2 hstep
      | error e => exact hstep

theorem runSteps_dirs_eq {α : Type} (step : World → α → World × Except Err Unit)
    (h : ∀ s a, (step s a).1.dirs = s.dirs) :
    ∀ (as : List α) (s : World), (runSteps step s as).1.dirs = s.dirs := by
  intro as s
  refine runSteps_inv step (fun s2 => s2.dirs = s.dirs) ?_ as s rfl
  intro s2 a hs2
  show (step s2 a).1.dirs = s.dirs
  rw [h s2 a]
  exact hs2

theorem runSteps_cons {α : Type} (step : World → α → World × Except Err Unit)
    (s : World) (a : α) (as : List α) :
    runSteps step s (a :: as)
      = match step s a with
        | (s2, .ok _) => runSteps step s2 as
        | (s2, .error e) => (s2, .error e) := rfl

theorem issue_ok_eq (env : BackendEnv) (c : BackendCall) (s : World)
    (hok : env.fails c s.remote = none) :
    issue env c s
      = ({ s with calls := s.calls ++ [c], rng := env.rngUse c s.rng, remote := applyCall c s.remote }, .ok ()) := by
  unfold issue
  rw [hok]

theorem runSteps_issue_ok (env : BackendEnv) (mk : List String → BackendCall)
    (hok : ∀ c r, env.fails (mk c) r = none) :
    ∀ (cs : List (List String)) (s : World),
      (runSteps (fun s2 c => issue env (mk c) s2) s cs).1.calls
          = s.calls ++ cs.map mk
      ∧ (runSteps (fun s2 c => issue env (mk c) s2) s cs).2 = .ok () := by
  intro cs
  induction cs with
  | nil => intro s; simp [runSteps]
  | cons c cs ih =>
    intro s
    rw [runSteps_cons]
    rw [issue_ok_eq env (mk c) s (hok c s.remote)]
    constructor
    · rw [(ih _).1]
      simp
    · exact (ih _).2

theorem data_eq_nil_iff (s : String) : s.data = [] ↔ s = "" := by
  constructor
  · intro h; apply String.ext; rw [h]
  · intro h; rw [h]

theorem pjoin_eq (a b : String) (ha1 : a ≠ "") (ha2 : endswithSlash a = false)
    (hb : startswithSlash b = false) : pjoin a b = a ++ "/" ++ b := by
  simp [pjoin, hb, ha2, ha1]

theorem pjoin_data (a b : String) (ha1 : a ≠ "") (ha2 : endswithSlash a = false)
    (hb : startswithSlash b = false) :
    (pjoin a b).data = a.data ++ '/' :: b.data := by
  rw [pjoin_eq a b ha1 ha2 hb]
  rw [String.data_append, String.data_append]
  simp

theorem startswithSlash_of_no_slash (x : String)
    (h : x.data.all (fun c => c != '/') = true) : startswithSlash x = false := by
  unfold startswithSlash
  cases hx : x.data with
  | nil => rfl
  | cons c t =>
    have hc := List.all_eq_true.mp h c (by rw [hx]; exact List.mem_cons_self c t)
    simp only [List.head?_cons]
    simp at hc ⊢
    exact hc

theorem dirnameL_append_marker (A B : List Char)
    (hA : A ≠ []) (hAlast : A.getLast? ≠ some '/')
    (hBlast : B.getLast? = some '/')
    (hBstrip : rstripSlashL B ≠ []) :
    dirnameL (A ++ '/' :: B) = A ++ '/' :: rstripSlashL B := by
  have hBrev : B.reverse.head? = some '/' := by rw [List.head?_reverse]; exact hBlast
  obtain ⟨B2, hB2⟩ : ∃ B2, B.reverse = '/' :: B2 := by
    cases hBr : B.reverse with
    | nil => rw [hBr] at hBrev; simp at hBrev
    | cons c t =>
      rw [hBr] at hBrev
      simp at hBrev
      exact ⟨t, by rw [hBrev]⟩
  have hDrev : (A ++ '/' :: B).reverse = '/' :: (B2 ++ '/' :: A.reverse) := by
    rw [List.reverse_append, List.reverse_cons, hB2]
    simp
  have htl : (A ++ '/' :: B).reverse.takeWhile (fun c => c != '/') = [] := by
    rw [hDrev]
    simp [List.takeWhile_cons]
  unfold dirnameL
  rw [htl]
  rw [if_neg (by simp only [List.length_nil, List.length_append, List.length_cons]; omega)]
  simp only [List.length_nil, List.drop_zero, List.reverse_reverse]
  unfold dirnameHead
  have hc0 : ∃ c ∈ A, (c == '/') = false := by
    have hg := List.getLast?_eq_getLast A hA
    refine ⟨A.getLast hA, List.getLast_mem hA, ?_⟩
    have hc : A.getLast hA ≠ '/' := by
      intro hcc
      exact hAlast (by rw [hg, hcc])
    simp [hc]
  have hall : (A ++ '/' :: B).all (fun c => c == '/') = false := by
    obtain ⟨c0, hc0mem, hc0ne⟩ := hc0
    cases hall2 : (A ++ '/' :: B).all (fun c => c == '/') with
    | false => rfl
    | true =>
      have hmem := List.all_eq_true.mp hall2 c0 (List.mem_append_left _ hc0mem)
      rw [hc0ne] at hmem
      exact absurd hmem (by simp)
  rw [hall]
  simp only [Bool.false_eq_true, if_false]
  unfold rstripSlashL
  have hne : (List.dropWhile (fun c => c == '/') B.reverse).isEmpty = false := by
    cases hdw : List.dropWhile (fun c => c == '/') B.reverse with
    | nil =>
      exfalso
      apply hBstrip
      unfold rstripSlashL
      rw [hdw]
      rfl
    | cons x t => rfl
  rw [List.reverse_append, List.reverse_cons]
  rw [show B.reverse ++ ['/'] ++ A.reverse = B.reverse ++ ('/' :: A.reverse) by simp]
  rw [List.dropWhile_append, hne]
  simp only [Bool.false_eq_true, if_false]
  rw [List.reverse_append]
  simp

theorem dirname_pjoin_marker (sd rel : String)
    (h1 : startswithSlash rel = false) (h2 : endswithSlash rel = true)
    (h3 : rstripSlash rel ≠ "") (h4 : sd ≠ "") (h5 : endswithSlash sd = false) :
    dirname (pjoin sd rel) = sd ++ "/" ++ rstripSlash rel := by
  apply String.ext
  show dirnameL (pjoin sd rel).data = _
  rw [pjoin_data sd rel h4 h5 h1]
  have hA : sd.data ≠ [] := fun h => h4 ((data_eq_nil_iff sd).mp h)
  have hAlast : sd.data.getLast? ≠ some '/' := by
    intro hcc
    unfold endswithSlash at h5
    rw [hcc] at h5
    simp at h5
  have hBlast : rel.data.getLast? = some '/' := by
    unfold endswithSlash at h2
    exact of_decide_eq_true h2
  have hBstrip : rstripSlashL rel.data ≠ [] := by
    intro hcc
    apply h3
    apply String.ext
    show rstripSlashL rel.data = _
    rw [hcc]
  rw [dirnameL_append_marker sd.data rel.data hA hAlast hBlast hBstrip]
  rw [String.data_append, String.data_append]
  simp [rstripSlash]

theorem underOrEq_pjoin_false (base a b : String)
    (hbase1 : base ≠ "") (hbase2 : endswithSlash base = false)
    (hans : a.data.all (fun c => c != '/') = true)
    (hbns : b.data.all (fun c => c != '/') = true)
    (hne : b ≠ a) :
    underOrEq (pjoin base a) (pjoin base b) = false := by
  have hsa : startswithSlash a = false := startswithSlash_of_no_slash a hans
  have hsb : startswithSlash b = false := startswithSlash_of_no_slash b hbns
  have hda : (pjoin base a).data = base.data ++ '/' :: a.data :=
    pjoin_data base a hbase1 hbase2 hsa
  have hdb : (pjoin base b).data = base.data ++ '/' :: b.data :=
    pjoin_data base b hbase1 hbase2 hsb
  unfold underOrEq
  apply Bool.or_eq_false_iff.mpr
  constructor
  · apply beq_eq_false_iff_ne.mpr
    intro hqp
    apply hne
    apply String.ext
    have hd := congrArg String.data hqp
    rw [hda, hdb] at hd
    have h2 := List.append_cancel_left hd
    injection h2
  · cases hpf : ((pjoin base a) ++ "/").data.isPrefixOf (pjoin base b).data with
    | false => rfl
    | true =>
      exfalso
      have hpre := List.isPrefixOf_iff_prefix.mp hpf
      have hpd : ((pjoin base a) ++ "/").data = (base.data ++ ['/']) ++ (a.data ++ ['/']) := by
        rw [String.data_append, hda]
        simp
      rw [hpd, hdb] at hpre
      rw [show base.data ++ '/' :: b.data = (base.data ++ ['/']) ++ b.data by simp] at hpre
      obtain ⟨t, ht⟩ := hpre
      rw [List.append_assoc] at ht
      have ht2 := List.append_cancel_left ht
      have hmem : '/' ∈ b.data := by
        rw [← ht2]
        simp
      have hfl := List.all_eq_true.mp hbns '/' hmem
      simp at hfl

theorem filter_all_not {α : Type} (p : α → Bool) (l : List α) :
    (l.filter (fun q => !(p q))).all (fun q => !(p q)) = true := by
  apply List.all_eq_true.mpr
  intro x hx
  exact (List.mem_filter.mp hx).2

theorem uploadStep_dirs (env : BackendEnv) (bucket : String) (minio : Bool)
    (sid sd : String) (s : World) (rel : String) :
    (S3StorageManager.uploadStep env bucket minio sid sd s rel).1.dirs = s.dirs := by
  unfold S3StorageManager.uploadStep
  split
  · split
    · exact issue_dirs env _ s
    · rfl
  · exact issue_dirs env _ s

theorem s3_upload_dirs (env : BackendEnv) (bucket : String) (minio : Bool)
    (md : StorageMetadata) (sd : String) (s : World) :
    (S3StorageManager.upload env bucket minio md sd s).1.dirs = s.dirs := by
  show (preserveRandomState _ s).1.dirs = s.dirs
  rw [preserveRandomState_dirs]
  exact runSteps_dirs_eq _ (fun s2 rel => uploadStep_dirs env bucket minio md.storage_id sd s2 rel) _ s

/-- Claim C1: for every `post_store_path` call on either adapter, whether the
upload transfer succeeds or raises, the local staging subdirectory named by
the metadata's `storage_id` under the staging base is recursively removed (no
directory at or below it survives in the final state) before the call returns,
and the upload's outcome — in particular any exception — is exactly what the
call propagates. -/
theorem post_store_path_cleanup
    (env : BackendEnv) (bucket : String) (minio : Bool)
    (base_path storage_id storage_dir : String) (md : StorageMetadata) (s : World) :
    ((S3StorageManager.post_store_path env bucket minio base_path storage_id storage_dir md s).1.dirs.all
        (fun q => !(underOrEq (pjoin base_path md.storage_id) q)) = true)
    ∧ (S3StorageManager.post_store_path env bucket minio base_path storage_id storage_dir md s).2
        = (S3StorageManager.upload env bucket minio md storage_dir s).2
    ∧ ((HDFSStorageManager.post_store_path env base_path storage_id storage_dir md s).1.dirs.all
        (fun q => !(underOrEq (pjoin base_path md.storage_id) q)) = true)
    ∧ (HDFSStorageManager.post_store_path env base_path storage_id storage_dir md s).2
        = (issue env (.hdfsUpload (.metadataObj md) storage_dir) s).2 := by
  refine ⟨?_, rfl, ?_, rfl⟩
  · exact filter_all_not _ _
  · exact filter_all_not _ _

/-- Claim C7: every guarded backend operation — `upload`, `download`, `delete`
on the object-storage adapter and `post_store_path`, `download`, `delete` on
the HDFS adapter — restores the process-global random generator state on exit,
whether the wrapped body succeeds or raises and however much random state the
backend client consumed, so the caller's next random draw is unchanged. -/
theorem random_state_isolation
    (env : BackendEnv) (bucket : String) (minio : Bool)
    (base_path storage_id storage_dir : String) (md : StorageMetadata) (s : World) :
    (S3StorageManager.upload env bucket minio md storage_dir s).1.rng = s.rng
    ∧ (S3StorageManager.download env bucket md storage_dir s).1.rng = s.rng
    ∧ (S3StorageManager.delete env bucket md s).1.rng = s.rng
    ∧ (HDFSStorageManager.post_store_path env base_path storage_id storage_dir md s).1.rng = s.rng
    ∧ (HDFSStorageManager.download env base_path md s).1.rng = s.rng
    ∧ (HDFSStorageManager.delete env md s).1.rng = s.rng :=
  ⟨rfl, rfl, rfl, rfl, rfl, rfl⟩

/-- Claim C3 (code bug): on the HDFS adapter, `post_store_path` performs a
single recursive upload call, but the remote-target argument it passes is the
`metadata` object itself — not the path derived from `storage_id` that the
sibling `download` and `delete` use — so the upload is not addressed to
`<root>/<storage_id>`. -/
theorem hdfs_post_store_path_upload_arg_is_metadata :
    (HDFSStorageManager.post_store_path envOk "/base" "abc123" "/tmp/abc123" mdExample w0).1.calls
      = [BackendCall.hdfsUpload (.metadataObj mdExample) "/tmp/abc123"]
    ∧ ((BackendCall.hdfsUpload (.metadataObj mdExample) "/tmp/abc123"
        == BackendCall.hdfsUpload (.path mdExample.storage_id) "/tmp/abc123") = false)
    ∧ (HDFSStorageManager.download envOk "/base" mdExample w0).1.calls
      = [BackendCall.hdfsDownload mdExample.storage_id "/base" true]
    ∧ (HDFSStorageManager.delete envOk mdExample w0).1.calls
      = [BackendCall.hdfsDelete mdExample.storage_id true] := by
  refine ⟨rfl, by decide, rfl, rfl⟩

theorem preserveRandomState_calls (f : M) (s : World) :
    (preserveRandomState f s).1.calls = (f s).1.calls := rfl

theorem preserveRandomState_snd (f : M) (s : World) :
    (preserveRandomState f s).2 = (f s).2 := rfl

/-- Claim C6: `delete` on the object-storage adapter splits the key sequence
`storage_id/rel_path` (in Resource Map iteration order) into consecutive
batches of 1000 and issues one delete-multiple request per batch in order;
the batches concatenate back to the original key sequence, there are
ceil(L/1000) of them, each has size 1000 except possibly the last, and 2500
resources yield exactly 3 requests of sizes 1000, 1000, 500. -/
theorem s3_delete_batching (env : BackendEnv) (bucket : String)
    (md : StorageMetadata) (s : World)
    (hok : ∀ ks r, env.fails (.deleteObjects bucket ks) r = none) :
    (S3StorageManager.delete env bucket md s).1.calls
      = s.calls ++ (chunks (S3StorageManager.deleteKeys md) 1000).map
          (fun c => BackendCall.deleteObjects bucket c)
    ∧ (chunks (S3StorageManager.deleteKeys md) 1000).flatten
        = S3StorageManager.deleteKeys md
    ∧ (chunks (S3StorageManager.deleteKeys md) 1000).length
        = (md.resources.length + 999) / 1000
    ∧ ((chunks (S3StorageManager.deleteKeys md) 1000).dropLast.all
        (fun c => c.length == 1000) = true)
    ∧ ((chunks (S3StorageManager.deleteKeys md) 1000).all
        (fun c => decide (c.length ≤ 1000)) = true)
    ∧ (md.resources.length = 2500 →
        (chunks (S3StorageManager.deleteKeys md) 1000).map List.length
          = [1000, 1000, 500]) := by
  have hkeys : (S3StorageManager.deleteKeys md).length = md.resources.length := by
    unfold S3StorageManager.deleteKeys
    rw [List.length_map]
  refine ⟨?_, ?_, ?_, ?_, ?_, ?_⟩
  · exact (runSteps_issue_ok env (fun c => .deleteObjects bucket c) hok _ s).1
  · exact chunks_join 1000 (by omega) _
  · rw [chunks_length 1000 (by omega), hkeys]
    norm_num
  · apply List.all_eq_true.mpr
    intro c hc
    have hcl := chunks_dropLast_length 1000 (by omega) _ c hc
    simp [hcl]
  · apply List.all_eq_true.mpr
    intro c hc
    simpa using chunks_mem_length_le 1000 (by omega) _ c hc
  · intro h25
    have hk25 : (S3StorageManager.deleteKeys md).length = 2500 := by rw [hkeys, h25]
    have hlen3 : (chunks (S3StorageManager.deleteKeys md) 1000).length = 3 := by
      rw [chunks_length 1000 (by omega), hk25]
    obtain ⟨c1, c2, c3, hc⟩ := List.length_eq_three.mp hlen3
    have h1 : c1.length = 1000 := by
      apply chunks_dropLast_length 1000 (by omega) (S3StorageManager.deleteKeys md) c1
      rw [hc]
      simp [List.dropLast]
    have h2 : c2.length = 1000 := by
      apply chunks_dropLast_length 1000 (by omega) (S3StorageManager.deleteKeys md) c2
      rw [hc]
      simp [List.dropLast]
    have hj := chunks_join 1000 (by omega) (S3StorageManager.deleteKeys md)
    rw [hc] at hj
    have hjl := congrArg List.length hj
    simp only [List.flatten_cons, List.flatten_nil, List.length_append,
      List.append_nil, hk25, h1, h2] at hjl
    have h3 : c3.length = 500 := by omega
    rw [hc]
    simp [h1, h2, h3]

/-- Claim C8: against a backend whose delete requests tolerate missing keys
(spec: "deleting an already-deleted key is a no-op, not an error"), running
`delete` a second time immediately after a successful `delete` of the same
Resource Map raises on neither adapter: both calls return normally. -/
theorem delete_idempotent_no_raise
    (other : BackendCall → List String → Option Err) (g : BackendCall → Nat → Nat)
    (bucket : String) (md : StorageMetadata) (s : World) :
    (S3StorageManager.delete (deleteTolerantEnv other g) bucket md s).2 = .ok ()
    ∧ (S3StorageManager.delete (deleteTolerantEnv other g) bucket md
        (S3StorageManager.delete (deleteTolerantEnv other g) bucket md s).1).2 = .ok ()
    ∧ (HDFSStorageManager.delete (deleteTolerantEnv other g) md s).2 = .ok ()
    ∧ (HDFSStorageManager.delete (deleteTolerantEnv other g) md
        (HDFSStorageManager.delete (deleteTolerantEnv other g) md s).1).2 = .ok () := by
  have hs3 : ∀ s2 : World,
      (S3StorageManager.delete (deleteTolerantEnv other g) bucket md s2).2 = .ok () := by
    intro s2
    exact (runSteps_issue_ok (deleteTolerantEnv other g)
      (fun c => .deleteObjects bucket c) (fun c r => rfl) _ s2).2
  have hh : ∀ s2 : World,
      (HDFSStorageManager.delete (deleteTolerantEnv other g) md s2).2 = .ok () := by
    intro s2
    show (issue (deleteTolerantEnv other g) (.hdfsDelete md.storage_id true) s2).2 = _
    rw [issue_ok_eq _ _ _ rfl]
  exact ⟨hs3 s, hs3 _, hh s, hh _⟩

theorem makedirsM_true (p : String) (s : World) :
    makedirsM p true s = (addDir p s, .ok ()) := by
  unfold makedirsM addDir
  split <;> rfl

theorem addDir_calls (p : String) (s : World) : (addDir p s).calls = s.calls := by
  unfold addDir
  split <;> rfl

theorem addDir_mem_self (p : String) (s : World) : p ∈ (addDir p s).dirs := by
  unfold addDir
  split
  · assumption
  · exact List.mem_cons_self p s.dirs

theorem addDir_mem_preserve (p q : String) (s : World) (h : q ∈ s.dirs) :
    q ∈ (addDir p s).dirs := by
  unfold addDir
  split
  · exact h
  · exact List.mem_cons_of_mem p h

/-- Claim C4: for a resource entry of the object-storage adapter whose
relative path ends in `'/'`: on upload with the minio workaround disabled a
zero-byte object is written at key `storage_id/rel_path`, with the workaround
enabled the entry is skipped (no backend call, state unchanged); on download
the entry issues no backend fetch and ensures an empty local directory at
`storage_dir/rel_path` (the created path equals `storage_dir/rel_path` with
trailing slashes stripped); every non-marker entry is fetched individually
from key `storage_id/rel_path`. -/
theorem s3_directory_marker_handling
    (env : BackendEnv) (bucket sid sd : String) (s : World) (rel : String) :
    (endswithSlash rel = true →
      (S3StorageManager.uploadStep env bucket false sid sd s rel).1.calls
          = s.calls ++ [BackendCall.putObject bucket (sid ++ "/" ++ rel) []]
      ∧ S3StorageManager.uploadStep env bucket true sid sd s rel = (s, .ok ())
      ∧ (S3StorageManager.downloadStep env bucket sid sd s rel).1.calls = s.calls
      ∧ dirname (pjoin sd rel)
          ∈ (S3StorageManager.downloadStep env bucket sid sd s rel).1.dirs
      ∧ (startswithSlash rel = false → rstripSlash rel ≠ "" → sd ≠ "" →
          endswithSlash sd = false →
          dirname (pjoin sd rel) = sd ++ "/" ++ rstripSlash rel))
    ∧ (endswithSlash rel = false →
      (S3StorageManager.downloadStep env bucket sid sd s rel).1.calls
          = s.calls ++ [BackendCall.downloadFile bucket (sid ++ "/" ++ rel) (pjoin sd rel)]) := by
  constructor
  · intro hmark
    refine ⟨?_, ?_, ?_, ?_, ?_⟩
    · unfold S3StorageManager.uploadStep
      rw [hmark]
      simp only [if_true]
      exact issue_calls env _ s
    · unfold S3StorageManager.uploadStep
      rw [hmark]
      simp
    · unfold S3StorageManager.downloadStep
      simp only [makedirsM_true, hmark, if_true]
      exact addDir_calls _ s
    · unfold S3StorageManager.downloadStep
      simp only [makedirsM_true, hmark, if_true]
      exact addDir_mem_self _ s
    · intro hs1 hs2 hs3 hs4
      exact dirname_pjoin_marker sd rel hs1 hmark hs2 hs3 hs4
  · intro hmark
    unfold S3StorageManager.downloadStep
    simp only [makedirsM_true, hmark, Bool.false_eq_true, if_false]
    rw [issue_calls, addDir_calls]

/-- Claim C4 witness: the marker entry `logs/` at the concrete inputs. -/
theorem s3_directory_marker_handling_witness :
    (S3StorageManager.uploadStep envOk "b" false "abc123" "/tmp/abc123" w0 "logs/").1.calls
      = w0.calls ++ [BackendCall.putObject "b" ("abc123" ++ "/" ++ "logs/") []]
    ∧ S3StorageManager.uploadStep envOk "b" true "abc123" "/tmp/abc123" w0 "logs/"
        = (w0, .ok ())
    ∧ (S3StorageManager.downloadStep envOk "b" "abc123" "/tmp/abc123" w0 "logs/").1.calls
        = w0.calls
    ∧ dirname (pjoin "/tmp/abc123" "logs/")
        ∈ (S3StorageManager.downloadStep envOk "b" "abc123" "/tmp/abc123" w0 "logs/").1.dirs
    ∧ dirname (pjoin "/tmp/abc123" "logs/") = "/tmp/abc123" ++ "/" ++ rstripSlash "logs/" := by
  have h := (s3_directory_marker_handling envOk "b" "abc123" "/tmp/abc123" w0 "logs/").1
    (by decide)
  exact ⟨h.1, h.2.1, h.2.2.1, h.2.2.2.1,
    h.2.2.2.2 (by decide) (by decide) (by decide) (by decide)⟩

theorem s3_post_store_path_dirs (env : BackendEnv) (bucket : String) (minio : Bool)
    (base_path storage_id storage_dir : String) (md : StorageMetadata) (s : World) :
    (S3StorageManager.post_store_path env bucket minio base_path storage_id storage_dir md s).1.dirs
      = s.dirs.filter (fun q => !(underOrEq (pjoin base_path md.storage_id) q)) := by
  show (removeCheckpointDirectory base_path md.storage_id
      (S3StorageManager.upload env bucket minio md storage_dir s).1).dirs = _
  unfold removeCheckpointDirectory
  rw [s3_upload_dirs]

theorem hdfs_post_store_path_dirs (env : BackendEnv)
    (base_path storage_id storage_dir : String) (md : StorageMetadata) (s : World) :
    (HDFSStorageManager.post_store_path env base_path storage_id storage_dir md s).1.dirs
      = s.dirs.filter (fun q => !(underOrEq (pjoin base_path md.storage_id) q)) := by
  show (removeCheckpointDirectory base_path md.storage_id
      (issue env (.hdfsUpload (.metadataObj md) storage_dir) s).1).dirs = _
  unfold removeCheckpointDirectory
  rw [issue_dirs]

/-- Claim C9: on both adapters the subdirectory removed by `post_store_path`
is the one named by `metadata.storage_id`, not the one named by the separate
`storage_id` argument: when the two identifiers (single path components,
i.e. slash-free) differ, the subdirectory named by the argument is present
after the call exactly when it was present before, while nothing at or below
the metadata's subdirectory survives. -/
theorem post_store_path_removes_metadata_dir_only
    (env : BackendEnv) (bucket : String) (minio : Bool)
    (base_path storage_id storage_dir : String) (md : StorageMetadata) (s : World)
    (hbase1 : base_path ≠ "") (hbase2 : endswithSlash base_path = false)
    (hans : md.storage_id.data.all (fun c => c != '/') = true)
    (hbns : storage_id.data.all (fun c => c != '/') = true)
    (hne : storage_id ≠ md.storage_id) :
    (pjoin base_path storage_id
        ∈ (S3StorageManager.post_store_path env bucket minio base_path storage_id storage_dir md s).1.dirs
      ↔ pjoin base_path storage_id ∈ s.dirs)
    ∧ ((S3StorageManager.post_store_path env bucket minio base_path storage_id storage_dir md s).1.dirs.all
        (fun q => !(underOrEq (pjoin base_path md.storage_id) q)) = true)
    ∧ (pjoin base_path storage_id
        ∈ (HDFSStorageManager.post_store_path env base_path storage_id storage_dir md s).1.dirs
      ↔ pjoin base_path storage_id ∈ s.dirs)
    ∧ ((HDFSStorageManager.post_store_path env base_path storage_id storage_dir md s).1.dirs.all
        (fun q => !(underOrEq (pjoin base_path md.storage_id) q)) = true) := by
  have hu : underOrEq (pjoin base_path md.storage_id) (pjoin base_path storage_id) = false :=
    underOrEq_pjoin_false base_path md.storage_id storage_id hbase1 hbase2 hans hbns hne
  have hmemfilter : ∀ l : List String,
      (pjoin base_path storage_id
          ∈ l.filter (fun q => !(underOrEq (pjoin base_path md.storage_id) q))
        ↔ pjoin base_path storage_id ∈ l) := by
    intro l
    constructor
    · intro h
      exact (List.mem_filter.mp h).1
    · intro h
      refine List.mem_filter.mpr ⟨h, ?_⟩
      rw [hu]
      rfl
  refine ⟨?_, ?_, ?_, ?_⟩
  · rw [s3_post_store_path_dirs]
    exact hmemfilter s.dirs
  · rw [s3_post_store_path_dirs]
    exact filter_all_not _ _
  · rw [hdfs_post_store_path_dirs]
    exact hmemfilter s.dirs
  · rw [hdfs_post_store_path_dirs]
    exact filter_all_not _ _

/-- Claim C9 witness: with `storage_id` argument `"aa"` and metadata id
`"bb"`, both subdirectories initially present, `/tmp/aa` survives both
adapters' `post_store_path` and nothing at or below `/tmp/bb` does. -/
theorem post_store_path_removes_metadata_dir_only_witness :
    (pjoin "/tmp" "aa"
        ∈ (S3StorageManager.post_store_path envOk "b" false "/tmp" "aa" "/tmp/aa" mdB wAB).1.dirs
      ↔ pjoin "/tmp" "aa" ∈ wAB.dirs)
    ∧ ((S3StorageManager.post_store_path envOk "b" false "/tmp" "aa" "/tmp/aa" mdB wAB).1.dirs.all
        (fun q => !(underOrEq (pjoin "/tmp" mdB.storage_id) q)) = true)
    ∧ (pjoin "/tmp" "aa"
        ∈ (HDFSStorageManager.post_store_path envOk "/tmp" "aa" "/tmp/aa" mdB wAB).1.dirs
      ↔ pjoin "/tmp" "aa" ∈ wAB.dirs)
    ∧ ((HDFSStorageManager.post_store_path envOk "/tmp" "aa" "/tmp/aa" mdB wAB).1.dirs.all
        (fun q => !(underOrEq (pjoin "/tmp" mdB.storage_id) q)) = true) :=
  post_store_path_removes_metadata_dir_only envOk "b" false "/tmp" "aa" "/tmp/aa" mdB wAB
    (by decide) (by decide) (by decide) (by decide) (by decide)

/-- Claim C6 witness: the concrete 2500-resource Resource Map yields exactly
the three chunked batch requests, of sizes 1000, 1000 and 500. -/
theorem s3_delete_batching_witness :
    (chunks (S3StorageManager.deleteKeys md2500) 1000).map List.length
        = [1000, 1000, 500]
    ∧ (S3StorageManager.delete envOk "b" md2500 w0).1.calls
        = w0.calls ++ (chunks (S3StorageManager.deleteKeys md2500) 1000).map
            (fun c => BackendCall.deleteObjects "b" c) := by
  have h := s3_delete_batching envOk "b" md2500 w0 (fun ks r => rfl)
  refine ⟨h.2.2.2.2.2 ?_, h.1⟩
  show (List.replicate 2500 ("a", 0)).length = 2500
  rw [List.length_replicate]

/-- Claim C10: on the object-storage adapter, when the staging subdirectory
`<base_path>/<metadata.storage_id>` already exists, the creation step of
`restore_path` succeeds without modifying the state (the pre-existing
directory is reused rather than raising), and the call proceeds to the
download and then hands the scope body exactly that joined path. -/
theorem s3_restore_path_preexisting_dir
    (env : BackendEnv) (bucket base_path : String) (md : StorageMetadata)
    (body : String → M) (s : World)
    (hpre : pjoin base_path md.storage_id ∈ s.dirs) :
    makedirsM (pjoin base_path md.storage_id) true s = (s, .ok ())
    ∧ S3StorageManager.restore_path env bucket base_path md body s
        = (match S3StorageManager.download env bucket md (pjoin base_path md.storage_id) s with
           | (s2, .ok _) =>
               tryFinallyM (body (pjoin base_path md.storage_id))
                 (removeCheckpointDirectory base_path md.storage_id) s2
           | (s2, .error e) => (s2, .error e)) := by
  have hmk : makedirsM (pjoin base_path md.storage_id) true s = (s, .ok ()) := by
    unfold makedirsM
    rw [if_pos hpre]
    rfl
  refine ⟨hmk, ?_⟩
  unfold S3StorageManager.restore_path
  simp only [hmk]
  cases hdl : S3StorageManager.download env bucket md (pjoin base_path md.storage_id) s with
  | mk s2 r =>
    cases r <;> rfl

/-- Claim C10 witness: with `/tmp/abc123` already present, creation is a
no-op returning success and the call reduces to download plus scoped body. -/
theorem s3_restore_path_preexisting_dir_witness :
    makedirsM (pjoin "/tmp" mdExample.storage_id) true wPre = (wPre, .ok ())
    ∧ S3StorageManager.restore_path envOk "bkt" "/tmp" mdExample bodyOk wPre
        = (match S3StorageManager.download envOk "bkt" mdExample (pjoin "/tmp" mdExample.storage_id) wPre with
           | (s2, .ok _) =>
               tryFinallyM (bodyOk (pjoin "/tmp" mdExample.storage_id))
                 (removeCheckpointDirectory "/tmp" mdExample.storage_id) s2
           | (s2, .error e) => (s2, .error e)) :=
  s3_restore_path_preexisting_dir envOk "bkt" "/tmp" mdExample bodyOk wPre (by decide)

theorem downloadStep_mem (env : BackendEnv) (bucket sid sd q : String)
    (s : World) (rel : String) (h : q ∈ s.dirs) :
    q ∈ (S3StorageManager.downloadStep env bucket sid sd s rel).1.dirs := by
  unfold S3StorageManager.downloadStep
  simp only [makedirsM_true]
  split
  · exact addDir_mem_preserve _ _ _ h
  · rw [issue_dirs]
    exact addDir_mem_preserve _ _ _ h

theorem s3_download_mem (env : BackendEnv) (bucket : String) (md : StorageMetadata)
    (sd q : String) (s : World) (h : q ∈ s.dirs) :
    q ∈ (S3StorageManager.download env bucket md sd s).1.dirs := by
  show q ∈ (preserveRandomState _ s).1.dirs
  rw [preserveRandomState_dirs]
  exact runSteps_inv _ (fun s2 => q ∈ s2.dirs)
    (fun s2 rel h2 => downloadStep_mem env bucket md.storage_id sd q s2 rel h2) _ s h

/-- Claim C2 (amended): on both adapters a `restore_path` scope removes the
staging subdirectory for `metadata.storage_id` on exit whenever the download
succeeded and the path was yielded — including when the caller's scope body
raises (the body is arbitrary here) — but when the download itself fails
before the path is yielded, cleanup does not run: the error propagates with
the state the download left behind, and on the object-storage adapter the
already-created staging subdirectory is still present in that state. -/
theorem restore_path_cleanup_amended
    (env : BackendEnv) (bucket base_path : String) (md : StorageMetadata)
    (body : String → M) (s : World) :
    ((S3StorageManager.download env bucket md (pjoin base_path md.storage_id)
        (addDir (pjoin base_path md.storage_id) s)).2 = .ok () →
      ((S3StorageManager.restore_path env bucket base_path md body s).1.dirs.all
        (fun q => !(underOrEq (pjoin base_path md.storage_id) q)) = true))
    ∧ (∀ e : Err,
        (S3StorageManager.download env bucket md (pjoin base_path md.storage_id)
            (addDir (pjoin base_path md.storage_id) s)).2 = .error e →
        S3StorageManager.restore_path env bucket base_path md body s
            = ((S3StorageManager.download env bucket md (pjoin base_path md.storage_id)
                (addDir (pjoin base_path md.storage_id) s)).1, .error e)
        ∧ pjoin base_path md.storage_id
            ∈ (S3StorageManager.download env bucket md (pjoin base_path md.storage_id)
                (addDir (pjoin base_path md.storage_id) s)).1.dirs)
    ∧ ((HDFSStorageManager.download env base_path md s).2 = .ok () →
      ((HDFSStorageManager.restore_path env base_path md body s).1.dirs.all
        (fun q => !(underOrEq (pjoin base_path md.storage_id) q)) = true))
    ∧ (∀ e : Err, (HDFSStorageManager.download env base_path md s).2 = .error e →
      HDFSStorageManager.restore_path env base_path md body s
        = ((HDFSStorageManager.download env base_path md s).1, .error e)) := by
  refine ⟨?_, ?_, ?_, ?_⟩
  · intro hdl
    unfold S3StorageManager.restore_path
    simp only [makedirsM_true]
    cases hd2 : S3StorageManager.download env bucket md (pjoin base_path md.storage_id)
        (addDir (pjoin base_path md.storage_id) s) with
    | mk s2 r =>
      rw [hd2] at hdl
      cases r with
      | error e => exact absurd hdl (by simp)
      | ok u =>
        cases u
        exact filter_all_not _ _
  · intro e hdl
    unfold S3StorageManager.restore_path
    simp only [makedirsM_true]
    cases hd2 : S3StorageManager.download env bucket md (pjoin base_path md.storage_id)
        (addDir (pjoin base_path md.storage_id) s) with
    | mk s2 r =>
      rw [hd2] at hdl
      cases r with
      | ok u => exact absurd hdl (by simp)
      | error e2 =>
        have he : e2 = e := by
          simp only at hdl
          injection hdl
        subst he
        refine ⟨rfl, ?_⟩
        have hmem : pjoin base_path md.storage_id
            ∈ (addDir (pjoin base_path md.storage_id) s).dirs := addDir_mem_self _ s
        have hmem2 := s3_download_mem env bucket md (pjoin base_path md.storage_id)
          (pjoin base_path md.storage_id) (addDir (pjoin base_path md.storage_id) s) hmem
        rw [hd2] at hmem2
        exact hmem2
  · intro hdl
    unfold HDFSStorageManager.restore_path
    cases hd2 : HDFSStorageManager.download env base_path md s with
    | mk s2 r =>
      rw [hd2] at hdl
      cases r with
      | error e => exact absurd hdl (by simp)
      | ok u =>
        cases u
        exact filter_all_not _ _
  · intro e hdl
    unfold HDFSStorageManager.restore_path
    cases hd2 : HDFSStorageManager.download env base_path md s with
    | mk s2 r =>
      rw [hd2] at hdl
      cases r with
      | ok u => exact absurd hdl (by simp)
      | error e2 =>
        have he : e2 = e := by
          simp only at hdl
          injection hdl
        subst he
        rfl

/-- Claim C2 witness: with an all-succeeding backend, after both adapters'
`restore_path` scopes exit nothing at or below the staging subdirectory
remains. -/
theorem restore_path_cleanup_amended_witness :
    ((S3StorageManager.restore_path envOk "bkt" "/tmp" mdExample bodyOk w0).1.dirs.all
        (fun q => !(underOrEq (pjoin "/tmp" mdExample.storage_id) q)) = true)
    ∧ ((HDFSStorageManager.restore_path envOk "/tmp" mdExample bodyOk w0).1.dirs.all
        (fun q => !(underOrEq (pjoin "/tmp" mdExample.storage_id) q)) = true) := by
  have h := restore_path_cleanup_amended envOk "bkt" "/tmp" mdExample bodyOk w0
  exact ⟨h.1 rfl, h.2.2.1 rfl⟩

/-- Claim C2 counterexample: when the download raises before the path is
yielded, the object-storage `restore_path` propagates the error while the
staging subdirectory `/tmp/abc123` — created just before the download — is
still present afterwards, contradicting cleanup on every exit path. -/
theorem restore_path_download_failure_leaves_dir :
    (S3StorageManager.restore_path envFailDl "bkt" "/tmp" mdExample bodyOk w0).2
        = .error 3
    ∧ pjoin "/tmp" mdExample.storage_id
        ∈ (S3StorageManager.restore_path envFailDl "bkt" "/tmp" mdExample bodyOk w0).1.dirs := by
  exact ⟨rfl, by decide⟩

/-- Claim C5 counterexample: a probe failure whose exception is not of the
connection-error class named in the handler propagates out of `__init__`, so
construction fails instead of degrading to the disabled workaround. -/
theorem s3_init_probe_failure_can_fail_construction :
    S3StorageManager.init (some "http://minio.test:9000") (ProbeResult.otherError 5)
      = .error 5 := rfl

/-- Claim C5 (amended): with a configured endpoint the minio workaround is
enabled iff the probe returns a response whose `Server` header, lowercased,
equals "minio"; a probe failure of the handled connection-error class is
swallowed, leaves the workaround disabled and does not fail construction;
any other probe exception propagates and construction fails; without an
endpoint the workaround stays disabled. -/
theorem s3_init_minio_workaround_amended (u : String) (pr : ProbeResult) :
    (S3StorageManager.init (some u) pr = .ok true
      ↔ ∃ srv : Option String, pr = .headers srv ∧ strToLower (srv.getD "") = "minio")
    ∧ (pr = .connectionError → S3StorageManager.init (some u) pr = .ok false)
    ∧ (∀ e : Err, pr = .otherError e → S3StorageManager.init (some u) pr = .error e)
    ∧ S3StorageManager.init none pr = .ok false := by
  refine ⟨?_, ?_, ?_, rfl⟩
  · constructor
    · intro h
      cases pr with
      | headers srv =>
        refine ⟨srv, rfl, ?_⟩
        unfold S3StorageManager.init at h
        simp at h
        exact h
      | connectionError => simp [S3StorageManager.init] at h
      | otherError e => simp [S3StorageManager.init] at h
    · rintro ⟨srv, rfl, hsrv⟩
      unfold S3StorageManager.init
      simp [hsrv]
  · intro h
    subst h
    rfl
  · intro e h
    subst h
    rfl

/-- Claim C5 witness: the three probe outcomes at concrete inputs. -/
theorem s3_init_minio_workaround_amended_witness :
    S3StorageManager.init (some "http://e") (ProbeResult.headers (some "MinIO")) = .ok true
    ∧ S3StorageManager.init (some "http://e") ProbeResult.connectionError = .ok false
    ∧ S3StorageManager.init (some "http://e") (ProbeResult.otherError 7) = .error 7 := by
  have h1 := (s3_init_minio_workaround_amended "http://e"
    (ProbeResult.headers (some "MinIO"))).1.mpr ⟨some "MinIO", rfl, by decide⟩
  have h2 := (s3_init_minio_workaround_amended "http://e" ProbeResult.connectionError).2.1 rfl
  have h3 := (s3_init_minio_workaround_amended "http://e"
    (ProbeResult.otherError 7)).2.2.1 7 rfl
  exact ⟨h1, h2, h3⟩
